import Mathlib

/-!
Verification development for the `mocha-runner` orchestration core
(`src/packages/mocha-runner/src/mocha-runner.ts`).

The embedding models, faithfully to the source:
  * the MD5 digest used for suite/test identifiers (`crypto.createHash("md5")`);
  * the discovery walker `listTestsAndTestSuites`;
  * the pre-run locator filter `filterSpecs` (tests and suites);
  * the per-pass executor `execute` and multi-pass coordinator `executeTests`.

Helper code of this repository that lives outside the provided source file
(`@lambdatest/test-at-scale-core` utilities and `./helper`) is modelled from
the specification, as marked on each such definition.
-/

namespace TAS

/-! ## MD5 (the digest used by the source via `crypto.createHash("md5")`)

A direct embedding of the MD5 algorithm (RFC 1321) over `Nat`, with 32-bit
wraparound made explicit by reduction modulo 2^32. -/

/-- Reduce to a 32-bit word. -/
def w32 (n : Nat) : Nat := n % 4294967296

/-- Left-rotate a 32-bit word by `s` bits. For `x < 2^32` the two summands
occupy disjoint bit ranges, so addition coincides with bitwise or. -/
def rotl32 (x s : Nat) : Nat := w32 (x * 2 ^ s) + x / 2 ^ (32 - s)

/-- The MD5 round constants `K[i] = floor(2^32 * |sin(i+1)|)`. -/
def md5K : List Nat :=
  [0xd76aa478, 0xe8c7b756, 0x242070db, 0xc1bdceee,
   0xf57c0faf, 0x4787c62a, 0xa8304613, 0xfd469501,
   0x698098d8, 0x8b44f7af, 0xffff5bb1, 0x895cd7be,
   0x6b901122, 0xfd987193, 0xa679438e, 0x49b40821,
   0xf61e2562, 0xc040b340, 0x265e5a51, 0xe9b6c7aa,
   0xd62f105d, 0x02441453, 0xd8a1e681, 0xe7d3fbc8,
   0x21e1cde6, 0xc33707d6, 0xf4d50d87, 0x455a14ed,
   0xa9e3e905, 0xfcefa3f8, 0x676f02d9, 0x8d2a4c8a,
   0xfffa3942, 0x8771f681, 0x6d9d6122, 0xfde5380c,
   0xa4beea44, 0x4bdecfa9, 0xf6bb4b60, 0xbebfbc70,
   0x289b7ec6, 0xeaa127fa, 0xd4ef3085, 0x04881d05,
   0xd9d4d039, 0xe6db99e5, 0x1fa27cf8, 0xc4ac5665,
   0xf4292244, 0x432aff97, 0xab9423a7, 0xfc93a039,
   0x655b59c3, 0x8f0ccc92, 0xffeff47d, 0x85845dd1,
   0x6fa87e4f, 0xfe2ce6e0, 0xa3014314, 0x4e0811a1,
   0xf7537e82, 0xbd3af235, 0x2ad7d2bb, 0xeb86d391]

/-- The MD5 per-round left-rotation amounts. -/
def md5S : List Nat :=
  [7, 12, 17, 22, 7, 12, 17, 22, 7, 12, 17, 22, 7, 12, 17, 22,
   5, 9, 14, 20, 5, 9, 14, 20, 5, 9, 14, 20, 5, 9, 14, 20,
   4, 11, 16, 23, 4, 11, 16, 23, 4, 11, 16, 23, 4, 11, 16, 23,
   6, 10, 15, 21, 6, 10, 15, 21, 6, 10, 15, 21, 6, 10, 15, 21]

/-- The MD5 nonlinear functions, selected by step index. -/
def md5F (i b c d : Nat) : Nat :=
  if i < 16 then (b &&& c) ||| ((b ^^^ 0xffffffff) &&& d)
  else if i < 32 then (d &&& b) ||| ((d ^^^ 0xffffffff) &&& c)
  else if i < 48 then b ^^^ c ^^^ d
  else c ^^^ (b ||| (d ^^^ 0xffffffff))

/-- The MD5 message-word index per step. -/
def md5G (i : Nat) : Nat :=
  if i < 16 then i
  else if i < 32 then (5 * i + 1) % 16
  else if i < 48 then (3 * i + 5) % 16
  else (7 * i) % 16

/-- One MD5 compression of a 16-word block into the running state. -/
def md5Block (M : List Nat) (st : Nat × Nat × Nat × Nat) : Nat × Nat × Nat × Nat :=
  let (a0, b0, c0, d0) := st
  let (a, b, c, d) := (List.range 64).foldl
    (fun (acc : Nat × Nat × Nat × Nat) i =>
      let (va, vb, vc, vd) := acc
      let f := w32 (md5F i vb vc vd + va + md5K.getD i 0 + M.getD (md5G i) 0)
      (vd, w32 (vb + rotl32 f (md5S.getD i 0)), vb, vc))
    (a0, b0, c0, d0)
  (w32 (a0 + a), w32 (b0 + b), w32 (c0 + c), w32 (d0 + d))

/-- Consume the padded message, 16 words at a time. -/
def md5Blocks : List Nat → Nat × Nat × Nat × Nat → Nat × Nat × Nat × Nat
  | w0 :: w1 :: w2 :: w3 :: w4 :: w5 :: w6 :: w7 ::
    w8 :: w9 :: w10 :: w11 :: w12 :: w13 :: w14 :: w15 :: rest, st =>
      md5Blocks rest
        (md5Block [w0, w1, w2, w3, w4, w5, w6, w7, w8, w9, w10, w11, w12, w13, w14, w15] st)
  | _, st => st

/-- UTF-8 encoding of one character as bytes. -/
def utf8Bytes (c : Char) : List Nat :=
  let n := c.toNat
  if n < 0x80 then [n]
  else if n < 0x800 then [0xc0 + n / 64, 0x80 + n % 64]
  else if n < 0x10000 then [0xe0 + n / 4096, 0x80 + n / 64 % 64, 0x80 + n % 64]
  else [0xf0 + n / 262144, 0x80 + n / 4096 % 64, 0x80 + n / 64 % 64, 0x80 + n % 64]

/-- UTF-8 bytes of a string. -/
def toBytes (s : String) : List Nat :=
  s.data.foldr (fun c acc => utf8Bytes c ++ acc) []

/-- Little-endian 64-bit encoding of a number as 8 bytes. -/
def le64 (n : Nat) : List Nat :=
  [n % 256, n / 256 % 256, n / 65536 % 256, n / 16777216 % 256,
   n / 4294967296 % 256, n / 1099511627776 % 256,
   n / 281474976710656 % 256, n / 72057594037927936 % 256]

/-- MD5 padding: a 0x80 byte, zeros to 56 mod 64, then the bit length. -/
def md5Pad (msg : List Nat) : List Nat :=
  let len := msg.length
  let z := (119 - len % 64) % 64
  msg ++ [0x80] ++ List.replicate z 0 ++ le64 (8 * len)

/-- Group bytes into little-endian 32-bit words. -/
def bytesToWords : List Nat → List Nat
  | b0 :: b1 :: b2 :: b3 :: rest =>
      (b0 + 256 * (b1 + 256 * (b2 + 256 * b3))) :: bytesToWords rest
  | _ => []

/-- One lowercase hex digit. -/
def hexDigit (n : Nat) : Char :=
  if n < 10 then Char.ofNat (48 + n) else Char.ofNat (87 + n)

/-- Two lowercase hex digits of a byte. -/
def byteHex (b : Nat) : String :=
  String.mk [hexDigit (b / 16), hexDigit (b % 16)]

/-- Hex rendering of a 32-bit word, least significant byte first. -/
def wordLEHex (w : Nat) : String :=
  byteHex (w % 256) ++ byteHex (w / 256 % 256) ++
  byteHex (w / 65536 % 256) ++ byteHex (w / 16777216 % 256)

/-- The MD5 hex digest of a string, as produced by
`crypto.createHash("md5").update(s).digest("hex")` in the source. -/
def md5Hex (s : String) : String :=
  let ws := bytesToWords (md5Pad (toBytes s))
  let r := md5Blocks ws (0x67452301, 0xefcdab89, 0x98badcfe, 0x10325476)
  wordLEHex r.1 ++ wordLEHex r.2.1 ++ wordLEHex r.2.2.1 ++ wordLEHex r.2.2.2

/-- JavaScript's `Array.prototype.join("\n")`: elements joined with a
newline separator (empty string for an empty array). -/
def joinNL : List String → String
  | [] => ""
  | [x] => x
  | x :: xs => x ++ "\n" ++ joinNL xs

/-- The character-list analogue of `joinNL`, used to reason about the digest
input strings. -/
def joinData : List (List Char) → List Char
  | [] => []
  | [x] => x
  | x :: xs => x ++ '\n' :: joinData xs

/-! ## Data model -/

/-- Modelled from the spec: test statuses `{Passed, Failed, Skipped, BlockListed}`
(§3 TestResult); the `TestStatus` enum itself lives in the core package, which is
not under `src/`. -/
inductive TestStatus : Type where
  | passed
  | failed
  | skipped
  | blockListed
deriving DecidableEq, Repr

/-- Modelled from the spec: a Locator is "(relative file path, ordered ancestor
suite titles, leaf test/suite title) with a defined string serialization" (§3);
`Util.getLocator` of the core package is not under `src/`. The serialization is
assumed injective (it is used as a selection key), so locator sets are modelled
as lists of this structure with structural equality. -/
structure Locator : Type where
  file : String
  ancestors : List String
  title : String
deriving DecidableEq, Repr

/-- Modelled from the spec: `Util.getLocator(filename, ancestorTitles, title)`
packs its three arguments into a Locator (§3). -/
def getLocator (file : String) (ancestors : List String) (title : String) : Locator :=
  ⟨file, ancestors, title⟩

/-- Modelled from the spec: a TestResult is "identity (locator/id) + status +
timestamp + duration" (§3). Only the fields the claims refer to are kept; the
pass timestamp and duration play no role in any claim. -/
structure TestResult : Type where
  locator : Locator
  status : TestStatus
deriving DecidableEq, Repr

/-- Modelled from the spec: a suite-level result produced by
`MochaHelper.transformMochaSuiteAsSuiteResult` (helper module, not under
`src/`): the suite's identity plus a status. -/
structure SuiteResult : Type where
  locator : Locator
  status : TestStatus
deriving DecidableEq, Repr

/-- The runner's accumulator fields `_blocklistedTests`, `_blockListedLocators`
and `_blocklistedSuites` (source lines 32-34). The source's
`Set<string>` of locator serializations is modelled as a duplicate-free list of
locators, grown by `addLoc`. -/
structure FState : Type where
  blocklistedTests : List TestResult
  blockListedLocators : List Locator
  blocklistedSuites : List SuiteResult
deriving DecidableEq, Repr

/-- The empty accumulator state the runner starts with. -/
def FState.empty : FState := ⟨[], [], []⟩

/-- `Set.add` on the locator set: add if not already present. -/
def addLoc (s : List Locator) (l : Locator) : List Locator :=
  if l ∈ s then s else s ++ [l]

/-- Fold `addLoc` over a list of locators. -/
def addLocs (s : List Locator) (ls : List Locator) : List Locator :=
  ls.foldl addLoc s

/-- A mocha test as the filter and walker see it: an owning file (possibly
absent, the source writes `test.file ?? ""`) and a title. -/
structure MTest : Type where
  file : Option String
  title : String
deriving DecidableEq, Repr

mutual
/-- A mocha suite node: file, title, child suites and direct tests
(`Mocha.Suite` as consumed by the source). -/
inductive MSuite : Type where
  | node (file : Option String) (title : String) (suites : MSuiteL) (tests : List MTest)
/-- A list of child suites (spelled as a mutual inductive so that all
traversals are structurally recursive). -/
inductive MSuiteL : Type where
  | nil
  | cons (s : MSuite) (l : MSuiteL)
end

/-- The file of a suite node. -/
def MSuite.fileOf : MSuite → Option String
  | .node f _ _ _ => f

/-- The title of a suite node. -/
def MSuite.titleOf : MSuite → String
  | .node _ t _ _ => t

/-- The direct tests of a suite node. -/
def MSuite.testsOf : MSuite → List MTest
  | .node _ _ _ ts => ts

/-- The locator of a test under ancestor chain `path`, as built by the filter:
`Util.getLocator(test.file ?? "", parentSuites, test.title ?? "")`
(source line 260, with `getParentSuites` reproduced by carrying `path`). -/
def tLoc (path : List String) (t : MTest) : Locator :=
  getLocator (t.file.getD "") path t.title

/-- The locator of a child suite under ancestor chain `path`
(source line 296). -/
def sLoc (path : List String) (c : MSuite) : Locator :=
  getLocator (c.fileOf.getD "") path c.titleOf

/-- Modelled from the spec: `MochaHelper.transformMochaTestAsTestResult`
(helper module, not under `src/`) stamps the test's locator with the given
status. -/
def transformTest (loc : Locator) (status : TestStatus) : TestResult :=
  ⟨loc, status⟩

/-- Modelled from the spec: `MochaHelper.transformMochaSuiteAsSuiteResult`
(helper module, not under `src/`) stamps the suite's locator with the given
status. -/
def transformSuite (loc : Locator) (status : TestStatus) : SuiteResult :=
  ⟨loc, status⟩

/-- Record a test as blocklisted: `_blockListedLocators.add(...)` then
`_blocklistedTests.push(...)` (source lines 273-274 and 281-282). -/
def recordBlocked (r : TestResult) (st : FState) : FState :=
  { st with
    blockListedLocators := addLoc st.blockListedLocators r.locator,
    blocklistedTests := st.blocklistedTests ++ [r] }

/-! ## The locator filter (`MochaRunner.filterSpecs`, source lines 252-308) -/

/-- The per-test loop of `filterSpecs` (source lines 254-288): walk the
suite's test list, keep a test, record it as blocklisted, or drop it,
mirroring the source's branch structure on `_testlocator.size > 0`,
`_testlocator.has(locator)` and `isBlocklistedLocator(locator)`. -/
def filterTestsLoop (sel : List Locator) (bl : Locator → Bool) (path : List String) :
    List MTest → FState → List MTest × FState
  | [], st => ([], st)
  | t :: rest, st =>
    let locator := tLoc path t
    let blockListed := bl locator
    let testResult := transformTest locator TestStatus.blockListed
    if sel ≠ [] then
      if locator ∈ sel then
        if !blockListed then
          let (ks, st2) := filterTestsLoop sel bl path rest st
          (t :: ks, st2)
        else
          filterTestsLoop sel bl path rest (recordBlocked testResult st)
      else
        filterTestsLoop sel bl path rest st
    else
      if blockListed then
        filterTestsLoop sel bl path rest (recordBlocked testResult st)
      else
        let (ks, st2) := filterTestsLoop sel bl path rest st
        (t :: ks, st2)

mutual
/-- `filterSpecs` (source lines 252-308): replace the suite's test list by the
filtered one, record blocklisted child suites, and recurse into every child
suite (the source recurses unconditionally; blocklisted child suites are kept
in the tree). -/
def filterSpecs (sel : List Locator) (bl : Locator → Bool) (path : List String)
    (s : MSuite) (st : FState) : MSuite × FState :=
  match s with
  | .node file title suites tests =>
    let (ftests, st1) := filterTestsLoop sel bl path tests st
    let (fsuites, st2) := filterChildren sel bl path suites st1
    (.node file title fsuites ftests, st2)
/-- The child-suite loop of `filterSpecs` (source lines 290-307): for each
child, push a suite-level BlockListed record when its own locator is
blocklisted, then recurse into it. -/
def filterChildren (sel : List Locator) (bl : Locator → Bool) (path : List String)
    (l : MSuiteL) (st : FState) : MSuiteL × FState :=
  match l with
  | .nil => (.nil, st)
  | .cons c rest =>
    let locator := sLoc path c
    let st1 :=
      if bl locator then
        { st with blocklistedSuites :=
            st.blocklistedSuites ++ [transformSuite locator TestStatus.blockListed] }
      else st
    let (c2, st2) := filterSpecs sel bl (path ++ [c.titleOf]) c st1
    let (rest2, st3) := filterChildren sel bl path rest st2
    (.cons c2 rest2, st3)
end

/-! ## Derived (specification-side) descriptions of the filter -/

/-- The three dispositions the spec's decision table assigns to a test:
kept in the run set, recorded as blocklisted, or silently excluded. -/
inductive Disposition : Type where
  | runSet
  | blockListed
  | excluded
deriving DecidableEq, Repr

/-- The spec's decision table (§4.3) as read off the source's branch
structure: with a non-empty explicit set, membership decides between the
blocklist check and exclusion; with an empty explicit set, the blocklist
check alone decides. -/
def dispOf (sel : List Locator) (bl : Locator → Bool) (loc : Locator) : Disposition :=
  if sel ≠ [] then
    if loc ∈ sel then
      if !bl loc then Disposition.runSet else Disposition.blockListed
    else Disposition.excluded
  else
    if bl loc then Disposition.blockListed else Disposition.runSet

/-- The blocklist records one test-list pass appends, in order. -/
def blRecs (sel : List Locator) (bl : Locator → Bool) (path : List String)
    (tests : List MTest) : List TestResult :=
  (tests.filter (fun t => decide (dispOf sel bl (tLoc path t) = Disposition.blockListed))).map
    (fun t => transformTest (tLoc path t) TestStatus.blockListed)

mutual
/-- The suite-level BlockListed records `filterSpecs` appends for a whole
subtree, in traversal order (a record for every blocklisted suite, children
recorded before being recursed into). -/
def suiteRecs (bl : Locator → Bool) (path : List String) (s : MSuite) : List SuiteResult :=
  match s with
  | .node _ _ suites _ => suiteRecsL bl path suites
/-- Suite records of a child-suite list. -/
def suiteRecsL (bl : Locator → Bool) (path : List String) (l : MSuiteL) : List SuiteResult :=
  match l with
  | .nil => []
  | .cons c rest =>
    (if bl (sLoc path c) then [transformSuite (sLoc path c) TestStatus.blockListed] else []) ++
    suiteRecs bl (path ++ [c.titleOf]) c ++ suiteRecsL bl path rest
end

mutual
/-- The test-level BlockListed records `filterSpecs` appends for a whole
subtree, in traversal order (a suite's own tests before its children's). -/
def testRecs (sel : List Locator) (bl : Locator → Bool) (path : List String)
    (s : MSuite) : List TestResult :=
  match s with
  | .node _ _ suites tests =>
    blRecs sel bl path tests ++ testRecsL sel bl path suites
/-- Test records of a child-suite list. -/
def testRecsL (sel : List Locator) (bl : Locator → Bool) (path : List String)
    (l : MSuiteL) : List TestResult :=
  match l with
  | .nil => []
  | .cons c rest =>
    testRecs sel bl (path ++ [c.titleOf]) c ++ testRecsL sel bl path rest
end

mutual
/-- The tree `filterSpecs` leaves behind: every suite kept, each test list
replaced by its run set. -/
def pruneTree (sel : List Locator) (bl : Locator → Bool) (path : List String)
    (s : MSuite) : MSuite :=
  match s with
  | .node file title suites tests =>
    .node file title (pruneL sel bl path suites)
      (tests.filter (fun t => decide (dispOf sel bl (tLoc path t) = Disposition.runSet)))
/-- Pruning of a child-suite list. -/
def pruneL (sel : List Locator) (bl : Locator → Bool) (path : List String)
    (l : MSuiteL) : MSuiteL :=
  match l with
  | .nil => .nil
  | .cons c rest =>
    .cons (pruneTree sel bl (path ++ [c.titleOf]) c) (pruneL sel bl path rest)
end

/-! ## Per-pass execution (`MochaRunner.execute`, source lines 100-140) and the
multi-pass coordinator (`MochaRunner.executeTests`, source lines 142-180) -/

/-- One pass's collected results (`ExecutionResult` of the core package:
test results plus suite results). -/
structure ExecResult : Type where
  testResults : List TestResult
  testSuiteResults : List SuiteResult
deriving DecidableEq, Repr

/-- Modelled from the spec: `Util.handleDuplicateTests` (core package, not
under `src/`) deduplicates results by identity; §3 fixes the policy as
"when two result entries share a key, the later-observed entry is retained". -/
def handleDuplicateTests : List TestResult → List TestResult
  | [] => []
  | r :: rest =>
    if rest.any (fun s => s.locator == r.locator) then handleDuplicateTests rest
    else r :: handleDuplicateTests rest

/-- Modelled from the spec: `Util.filterTestResultsByTestLocator` (core
package, not under `src/`); §4.5 says "if an explicit selection was active,
further restrict the result set to only locators present in the selection,
while still recording which of those were ultimately blocklisted". The
blocklisted-locator set argument is kept for signature fidelity. -/
def filterTestResultsByTestLocator (results : List TestResult)
    (sel : List Locator) (blocked : List Locator) : List TestResult :=
  results.filter (fun r => r.locator ∈ sel)

/-- One execution pass (source lines 100-140). The mocha instance built from
the loaded files is the `tree` argument; the engine's reporter output for the
filtered tree is the `engT`/`engS` arguments (the engine itself is an external
collaborator). The pass filters the live tree through `filterSpecs` (installed
as the pre-run hook by `extendNativeRunner`), concatenates the accumulated
blocklist records onto the engine results, deduplicates the test results, and,
when an explicit locator set is present, restricts the test results to it.
The accumulator state persists into the returned state exactly as the
instance fields do in the source. -/
def execute (bl : Locator → Bool) (tree : MSuite)
    (engT : List TestResult) (engS : List SuiteResult)
    (locators : List Locator) (st : FState) : ExecResult × FState :=
  let fr := filterSpecs locators bl [] tree st
  let st1 := fr.2
  let tr0 := engT ++ st1.blocklistedTests
  let sr := engS ++ st1.blocklistedSuites
  let tr1 := handleDuplicateTests tr0
  let tr2 :=
    if locators ≠ [] then filterTestResultsByTestLocator tr1 locators st1.blockListedLocators
    else tr1
  (⟨tr2, sr⟩, st1)

/-- One locator group of the execution configuration: the locators to select
and how many passes to run over them (`set.numberofexecutions` in the source;
the spec's `LocatorGroup.repeatCount`). -/
structure LocatorGroup : Type where
  locators : List Locator
  numberofexecutions : Nat
deriving DecidableEq, Repr

/-- The inner repetition loop of `executeTests` (source lines 164-168):
`numberofexecutions` sequential passes over one group's locators, pushing one
result per pass. `tree` gives the suite tree mocha builds from the files
loaded for a given locator selection, and `eng` the engine's reporter output
for each pass index. -/
def runGroupPasses (bl : Locator → Bool) (tree : List Locator → MSuite)
    (eng : Nat → List TestResult × List SuiteResult) (ls : List Locator) :
    Nat → Nat → FState → List ExecResult × FState × Nat
  | 0, idx, st => ([], st, idx)
  | n + 1, idx, st =>
    let (r, st1) := execute bl (tree ls) (eng idx).1 (eng idx).2 ls st
    let (rs, st2, idx2) := runGroupPasses bl tree eng ls n (idx + 1) st1
    (r :: rs, st2, idx2)

/-- The group loop of `executeTests` (source lines 161-174): iterate the
locator groups in order, running each group's passes, accumulating every
pass's result into the execution report. -/
def executeTests (bl : Locator → Bool) (tree : List Locator → MSuite)
    (eng : Nat → List TestResult × List SuiteResult) :
    List LocatorGroup → Nat → FState → List ExecResult × FState × Nat
  | [], idx, st => ([], st, idx)
  | g :: rest, idx, st =>
    let (rs1, st1, idx1) := runGroupPasses bl tree eng g.locators g.numberofexecutions idx st
    let (rs2, st2, idx2) := executeTests bl tree eng rest idx1 st1
    (rs1 ++ rs2, st2, idx2)

/-- The flat pass schedule a group list describes: each group contributes
`numberofexecutions` consecutive passes over its locators. -/
def passPlan : List LocatorGroup → List (List Locator)
  | [] => []
  | g :: rest => List.replicate g.numberofexecutions g.locators ++ passPlan rest

/-- Strictly sequential execution of a flat pass schedule, one result per
scheduled pass. -/
def runPlan (bl : Locator → Bool) (tree : List Locator → MSuite)
    (eng : Nat → List TestResult × List SuiteResult) :
    List (List Locator) → Nat → FState → List ExecResult × FState × Nat
  | [], idx, st => ([], st, idx)
  | ls :: rest, idx, st =>
    let (r, st1) := execute bl (tree ls) (eng idx).1 (eng idx).2 ls st
    let (rs, st2, idx2) := runPlan bl tree eng rest (idx + 1) st1
    (r :: rs, st2, idx2)

/-! ## The discovery walker (`MochaRunner.listTestsAndTestSuites`,
source lines 182-238) -/

/-- Modelled from the spec: `Util.getIdentifier(filename, name)` (core
package, not under `src/`). The spec describes the hashed chain as the ordered
suite/test titles themselves ("push its title, compute its own qualified-name
path (all titles including itself)", §4.2), so a node's qualified name is its
title; the filename parameter is kept for signature fidelity with the source's
call sites. -/
def getIdentifier (filename : String) (name : String) : String :=
  name

/-- The digest input the walker builds for a qualified-name chain:
`repoID + "\n" + suiteIdentifiers.join("\n")` (source lines 200 and 206). -/
def chainInput (repo : String) (chain : List String) : String :=
  repo ++ "\n" ++ joinNL chain

/-- A flattened suite node of the discovery output (`TestSuite` of the core
package: hashed id, own qualified name, hashed parent id or null). -/
structure TestSuiteNode : Type where
  id : String
  suiteIdentifier : String
  parentId : Option String
deriving DecidableEq, Repr

/-- A flattened test node of the discovery output (`Test` of the core
package). The commit id and repo-root-relative file path stored by the source
are environment metadata (env var and the external `path` module) and are not
modelled; no claim refers to them. -/
structure TestNode : Type where
  id : String
  name : String
  title : String
  suiteId : Option String
  locator : Locator
deriving DecidableEq, Repr

/-- The suite node the walker emits for a child suite with the given ancestor
chain (source lines 194-209): hash the full qualified-name chain, and the
parent chain when non-empty. -/
def mkSuiteNode (repo : String) (file : String) (path : List String)
    (title : String) : TestSuiteNode :=
  let suiteIdentifiers := (path ++ [title]).map (getIdentifier file)
  let parentSuiteIdentifiers := suiteIdentifiers.dropLast
  { id := md5Hex (chainInput repo suiteIdentifiers),
    suiteIdentifier := getIdentifier file title,
    parentId :=
      if parentSuiteIdentifiers.length > 0 then
        some (md5Hex (chainInput repo parentSuiteIdentifiers))
      else none }

/-- The test node the walker emits for a test with the given ancestor chain
(source lines 215-236): hash the ancestor chain with the test's own
qualified name appended after a further separator, and the ancestor chain
alone for `suiteId` when non-empty. -/
def mkTestNode (repo : String) (file : String) (path : List String)
    (title : String) : TestNode :=
  let testIdentifier := getIdentifier file title
  let suiteIdentifiers := path.map (getIdentifier file)
  { id := md5Hex (chainInput repo suiteIdentifiers ++ "\n" ++ testIdentifier),
    name := testIdentifier,
    title := title,
    suiteId :=
      if suiteIdentifiers.length > 0 then
        some (md5Hex (chainInput repo suiteIdentifiers))
      else none,
    locator := getLocator file path title }

/-- The test loop of the walker (source lines 215-237): append one test node
per test of the current suite. -/
def walkTestsLoop (repo : String) (path : List String) :
    List MTest → List TestNode → List TestNode
  | [], acc => acc
  | t :: rest, acc =>
    walkTestsLoop repo path rest (acc ++ [mkTestNode repo (t.file.getD "") path t.title])

mutual
/-- `listTestsAndTestSuites` (source lines 182-238): child suites are walked
first (emitting a suite node before recursing into the child), then the
current suite's own tests are emitted. `path` carries the explicit
`ancestorTitles` stack. -/
def listWalk (repo : String) (path : List String) (s : MSuite)
    (acc : List TestSuiteNode × List TestNode) : List TestSuiteNode × List TestNode :=
  match s with
  | .node _ _ suites tests =>
    let acc1 := walkChildren repo path suites acc
    (acc1.1, walkTestsLoop repo path tests acc1.2)
/-- The child-suite loop of the walker (source lines 191-213): push the
child's title, emit its suite node, recurse, pop. -/
def walkChildren (repo : String) (path : List String) (l : MSuiteL)
    (acc : List TestSuiteNode × List TestNode) : List TestSuiteNode × List TestNode :=
  match l with
  | .nil => acc
  | .cons c rest =>
    let acc1 := (acc.1 ++ [mkSuiteNode repo (c.fileOf.getD "") path c.titleOf], acc.2)
    let acc2 := listWalk repo (path ++ [c.titleOf]) c acc1
    walkChildren repo path rest acc2
end

/-! ## Stack discipline of the walker under a traversal error

The source walker has no try/finally around push/recurse/pop (source lines
191-213). The error source itself is external; following the spec's failure
mode (§4.2, "if the external engine cannot enumerate a suite's children"),
a tree node is marked with whether enumerating its children succeeds. The
walk below mirrors the source's statement order: on a child error the `pop`
statement after the recursive call is never reached, and the error
propagates out of the remaining sibling iterations. Modelled from the spec:
the error injection; from the source: the push/recurse/pop ordering. -/

mutual
/-- A suite tree whose child enumeration can fail at any node. -/
inductive MSuiteE : Type where
  | node (title : String) (enumOk : Bool) (suites : MSuiteLE)
/-- Children of an error-prone suite tree. -/
inductive MSuiteLE : Type where
  | nil
  | cons (s : MSuiteE) (l : MSuiteLE)
end

/-- The title of an error-prone suite node. -/
def MSuiteE.titleOf : MSuiteE → String
  | .node t _ _ => t

mutual
/-- The walker over an error-prone tree, tracking the mutated
`ancestorTitles` array: the returned stack is the array's contents when the
walk returns, normally or with an error. -/
def walkE (s : MSuiteE) (stack : List String) : List String × Except Unit Unit :=
  match s with
  | .node _ enumOk suites =>
    if enumOk then walkChildrenE suites stack else (stack, Except.error ())
/-- The child loop of the error-prone walker: push the title, recurse, and
pop only when the recursive call returns normally — exactly the statement
order of source lines 193-212, where no try/finally guards the pop. -/
def walkChildrenE (l : MSuiteLE) (stack : List String) : List String × Except Unit Unit :=
  match l with
  | .nil => (stack, Except.ok ())
  | .cons c rest =>
    let stack1 := stack ++ [c.titleOf]
    let r := walkE c stack1
    match r.2 with
    | Except.error e => (r.1, Except.error e)
    | Except.ok _ => walkChildrenE rest r.1.dropLast
end

/-- Identifier of a chain as the spec's formula words it: "a hex digest
computed over `scopeId + "\n" + join("\n", ancestorQualifiedNames)`" (§3).
Stated from the spec's words for comparison against the walker's nodes. -/
def specIdentifier (scope : String) (chain : List String) : String :=
  md5Hex (scope ++ "\n" ++ joinNL chain)

/-! ## Concrete instances used by counterexamples and witnesses -/

/-- A blocklist predicate matching every locator. -/
def blAll : Locator → Bool := fun _ => true

/-- A blocklist predicate matching exactly the suites/tests titled `S`. -/
def blS : Locator → Bool := fun l => l.title == "S"

/-- An explicit selection containing a single locator that matches nothing in
the sample trees. -/
def selOther : List Locator := [⟨"f", [], "other"⟩]

/-- A sample test. -/
def tSample : MTest := ⟨some "f", "t1"⟩

/-- A sample tree: the root suite holding one child suite `S` that owns the
single test `t1`. -/
def treeS : MSuite :=
  .node none "" (.cons (.node (some "f") "S" .nil [tSample]) .nil) []

/-- A sample tree whose blocklisted suite `S` has no tests. -/
def treeSEmpty : MSuite :=
  .node none "" (.cons (.node (some "f") "S" .nil []) .nil) []

/-- An engine that reports nothing (all results in the sample passes come
from the blocklist accumulators). -/
def engZero : Nat → List TestResult × List SuiteResult := fun _ => ([], [])

/-- A sample discovery tree: the root suite holding child suite `A` with one
test `t`. -/
def treeW : MSuite :=
  .node none "" (.cons (.node (some "f") "A" .nil [⟨some "f", "t"⟩]) .nil) []

/-- An error-prone tree: the root enumerates fine, its only child `A` fails
to enumerate its children. -/
def badTree : MSuiteE :=
  .node "" true (.cons (.node "A" false .nil) .nil)

/-- Whether an exception is an error. -/
def isErr : Except Unit Unit → Bool
  | .error _ => true
  | .ok _ => false

/-- The first child suite of a suite node, if any. -/
def MSuite.firstChild : MSuite → Option MSuite
  | .node _ _ (.cons c _) _ => some c
  | _ => none

/-- A test node's parent link resolves inside the suite list `S`. -/
def Good (S : List TestSuiteNode) (t : TestNode) : Prop :=
  ∀ h : String, t.suiteId = some h → ∃ s ∈ S, s.id = h

/-- What precedes an element inside `joinData`: the joined prefix followed by
a separator, or nothing for an empty prefix. -/
def preJ (A : List (List Char)) : List Char :=
  if A = [] then [] else joinData A ++ ['\n']

/-- What follows an element inside `joinData`: a separator followed by the
joined suffix, or nothing for an empty suffix. -/
def sufJ (B : List (List Char)) : List Char :=
  if B = [] then [] else '\n' :: joinData B

end TAS

namespace TAS

/-! ## Characterization of the per-test filter loop -/

/-- The per-test loop keeps exactly the run-set tests and appends exactly the
blocklist records of the tests the decision table sends to BlockListed,
adding their locators to the locator set in the same order. -/
theorem filterTestsLoop_eq (sel : List Locator) (bl : Locator → Bool) (path : List String)
    (tests : List MTest) (st : FState) :
    filterTestsLoop sel bl path tests st =
      (tests.filter (fun t => decide (dispOf sel bl (tLoc path t) = Disposition.runSet)),
       ⟨st.blocklistedTests ++ blRecs sel bl path tests,
        addLocs st.blockListedLocators ((blRecs sel bl path tests).map TestResult.locator),
        st.blocklistedSuites⟩) := by
  induction tests generalizing st with
  | nil =>
    simp [filterTestsLoop, blRecs, addLocs]
  | cons t rest ih =>
    by_cases hsel : sel = []
    · subst hsel
      by_cases hb : bl (tLoc path t) = true
      · simp [filterTestsLoop, blRecs, dispOf, hb, ih, recordBlocked, addLocs,
          transformTest, List.filter]
      · simp [filterTestsLoop, blRecs, dispOf, hb, ih, List.filter]
    · by_cases hmem : tLoc path t ∈ sel
      · by_cases hb : bl (tLoc path t) = true
        · simp [filterTestsLoop, blRecs, dispOf, hsel, hmem, hb, ih, recordBlocked,
            addLocs, transformTest, List.filter]
        · simp [filterTestsLoop, blRecs, dispOf, hsel, hmem, hb, ih, List.filter]
      · simp [filterTestsLoop, blRecs, dispOf, hsel, hmem, ih, List.filter]

mutual
/-- Full characterization of `filterSpecs` on a suite: the returned tree is
the per-test-pruned tree (no suite is ever removed), and the accumulators
grow by exactly the subtree's test-level and suite-level blocklist records. -/
theorem filterSpecs_eq (sel : List Locator) (bl : Locator → Bool) (path : List String)
    (s : MSuite) (st : FState) :
    filterSpecs sel bl path s st =
      (pruneTree sel bl path s,
       ⟨st.blocklistedTests ++ testRecs sel bl path s,
        addLocs st.blockListedLocators ((testRecs sel bl path s).map TestResult.locator),
        st.blocklistedSuites ++ suiteRecs bl path s⟩) := by
  cases s with
  | node f title suites tests =>
    have h2 : ∀ st' : FState, filterChildren sel bl path suites st' =
        (pruneL sel bl path suites,
         ⟨st'.blocklistedTests ++ testRecsL sel bl path suites,
          addLocs st'.blockListedLocators ((testRecsL sel bl path suites).map TestResult.locator),
          st'.blocklistedSuites ++ suiteRecsL bl path suites⟩) :=
      fun st' => filterChildren_eq sel bl path suites st'
    simp [filterSpecs, filterTestsLoop_eq, h2, pruneTree, testRecs, suiteRecs,
      addLocs, List.foldl_append, List.append_assoc]
/-- Full characterization of the child-suite loop of `filterSpecs`. -/
theorem filterChildren_eq (sel : List Locator) (bl : Locator → Bool) (path : List String)
    (l : MSuiteL) (st : FState) :
    filterChildren sel bl path l st =
      (pruneL sel bl path l,
       ⟨st.blocklistedTests ++ testRecsL sel bl path l,
        addLocs st.blockListedLocators ((testRecsL sel bl path l).map TestResult.locator),
        st.blocklistedSuites ++ suiteRecsL bl path l⟩) := by
  cases l with
  | nil => simp [filterChildren, pruneL, testRecsL, suiteRecsL, addLocs]
  | cons c rest =>
    have h1 : ∀ st' : FState, filterSpecs sel bl (path ++ [c.titleOf]) c st' =
        (pruneTree sel bl (path ++ [c.titleOf]) c,
         ⟨st'.blocklistedTests ++ testRecs sel bl (path ++ [c.titleOf]) c,
          addLocs st'.blockListedLocators
            ((testRecs sel bl (path ++ [c.titleOf]) c).map TestResult.locator),
          st'.blocklistedSuites ++ suiteRecs bl (path ++ [c.titleOf]) c⟩) :=
      fun st' => filterSpecs_eq sel bl (path ++ [c.titleOf]) c st'
    have h2 : ∀ st' : FState, filterChildren sel bl path rest st' =
        (pruneL sel bl path rest,
         ⟨st'.blocklistedTests ++ testRecsL sel bl path rest,
          addLocs st'.blockListedLocators ((testRecsL sel bl path rest).map TestResult.locator),
          st'.blocklistedSuites ++ suiteRecsL bl path rest⟩) :=
      fun st' => filterChildren_eq sel bl path rest st'
    by_cases hb : bl (sLoc path c) = true
    · simp [filterChildren, h1, h2, hb, pruneL, testRecsL, suiteRecsL,
        addLocs, List.foldl_append, List.append_assoc]
    · simp [filterChildren, h1, h2, hb, pruneL, testRecsL, suiteRecsL,
        addLocs, List.foldl_append, List.append_assoc]
end

/-! ## Disposition helper lemmas -/

/-- With a non-empty selection, a selected blocklisted locator is sent to
BlockListed. -/
theorem dispOf_mem_blocked {sel : List Locator} {bl : Locator → Bool} {loc : Locator}
    (hsel : sel ≠ []) (hm : loc ∈ sel) (hbl : bl loc = true) :
    dispOf sel bl loc = Disposition.blockListed := by
  simp [dispOf, hsel, hm, hbl]

/-- With a non-empty selection, an unselected locator is excluded. -/
theorem dispOf_not_mem {sel : List Locator} {bl : Locator → Bool} {loc : Locator}
    (hsel : sel ≠ []) (hm : loc ∉ sel) :
    dispOf sel bl loc = Disposition.excluded := by
  simp [dispOf, hsel, hm]

/-- A blocklisted locator is never sent to the run set. -/
theorem dispOf_blocked_ne_runSet {sel : List Locator} {bl : Locator → Bool} {loc : Locator}
    (hbl : bl loc = true) : dispOf sel bl loc ≠ Disposition.runSet := by
  by_cases hsel : sel = []
  · simp [dispOf, hsel, hbl]
  · by_cases hm : loc ∈ sel <;> simp [dispOf, hsel, hm, hbl]

/-- With a non-empty selection, every recorded blocklist record carries a
selected locator. -/
theorem blRecs_locator_mem {sel : List Locator} {bl : Locator → Bool} {path : List String}
    {tests : List MTest} (hsel : sel ≠ []) :
    ∀ r ∈ blRecs sel bl path tests, r.locator ∈ sel := by
  intro r hr
  simp only [blRecs, List.mem_map, List.mem_filter] at hr
  rcases hr with ⟨t, ⟨-, hd⟩, rfl⟩
  by_cases hm : tLoc path t ∈ sel
  · simpa [transformTest] using hm
  · rw [decide_eq_true_eq, dispOf_not_mem hsel hm] at hd
    cases hd

/-- Membership of a test's blocklist record in the appended records is
equivalent to the decision table sending its locator to BlockListed (the
record is determined by the locator, so this is stable under duplicate
tests). -/
theorem mem_blRecs_iff {sel : List Locator} {bl : Locator → Bool} {path : List String}
    {tests : List MTest} {t : MTest} (hmem : t ∈ tests) :
    transformTest (tLoc path t) TestStatus.blockListed ∈ blRecs sel bl path tests ↔
      dispOf sel bl (tLoc path t) = Disposition.blockListed := by
  constructor
  · intro h
    simp only [blRecs, List.mem_map, List.mem_filter, decide_eq_true_eq] at h
    rcases h with ⟨t', ⟨-, hd⟩, heq⟩
    have hloc : tLoc path t' = tLoc path t := by
      simpa [transformTest, TestResult.mk.injEq] using heq
    rwa [hloc] at hd
  · intro h
    simp only [blRecs, List.mem_map, List.mem_filter, decide_eq_true_eq]
    exact ⟨t, ⟨hmem, h⟩, rfl⟩

/-! ## Claim C1 -/

/-- Claim C1 as stated is false on the code: with the non-empty explicit
selection `selOther`, the test `tSample` has a blocklisted locator (the
predicate matches every locator), yet the filter records nothing as
BlockListed — the test is silently dropped because its locator is not a
member of the selection. -/
theorem C1_counterexample :
    selOther ≠ [] ∧
    blAll (tLoc [] tSample) = true ∧
    (filterTestsLoop selOther blAll [] [tSample] FState.empty).2.blocklistedTests = [] ∧
    (filterTestsLoop selOther blAll [] [tSample] FState.empty).1 = [] := by
  decide

/-- Claim C1 (amended): during a pass with a non-empty explicit locator set,
a test whose locator matches the blocklist predicate is never kept in the run
set; it is recorded as BlockListed exactly when its locator is also a member
of the explicit selection set, and a blocklisted test outside the selection
is excluded without being recorded. -/
theorem C1_blocklist_vs_selection (sel : List Locator) (bl : Locator → Bool)
    (path : List String) (tests : List MTest) (st : FState) (t : MTest)
    (hsel : sel ≠ []) (hmem : t ∈ tests) (hbl : bl (tLoc path t) = true) :
    t ∉ (filterTestsLoop sel bl path tests st).1 ∧
    (filterTestsLoop sel bl path tests st).2.blocklistedTests
      = st.blocklistedTests ++ blRecs sel bl path tests ∧
    (tLoc path t ∈ sel →
      transformTest (tLoc path t) TestStatus.blockListed ∈ blRecs sel bl path tests) ∧
    (tLoc path t ∉ sel →
      transformTest (tLoc path t) TestStatus.blockListed ∉ blRecs sel bl path tests) := by
  refine ⟨?_, by rw [filterTestsLoop_eq], ?_, ?_⟩
  · intro hcontra
    rw [filterTestsLoop_eq] at hcontra
    rcases List.mem_filter.mp hcontra with ⟨-, hp⟩
    exact dispOf_blocked_ne_runSet hbl (by simpa using hp)
  · intro hm
    exact (mem_blRecs_iff hmem).mpr (dispOf_mem_blocked hsel hm hbl)
  · intro hm hcontra
    exact hm (blRecs_locator_mem hsel _ hcontra)

/-- Witness for the amended claim C1 at a concrete input: a selected,
blocklisted test is dropped from the run set and its record is appended. -/
theorem C1_witness :
    tSample ∉ (filterTestsLoop [tLoc [] tSample] blAll [] [tSample] FState.empty).1 ∧
    (filterTestsLoop [tLoc [] tSample] blAll [] [tSample] FState.empty).2.blocklistedTests
      = FState.empty.blocklistedTests ++ blRecs [tLoc [] tSample] blAll [] [tSample] ∧
    (tLoc [] tSample ∈ [tLoc [] tSample] →
      transformTest (tLoc [] tSample) TestStatus.blockListed
        ∈ blRecs [tLoc [] tSample] blAll [] [tSample]) ∧
    (tLoc [] tSample ∉ [tLoc [] tSample] →
      transformTest (tLoc [] tSample) TestStatus.blockListed
        ∉ blRecs [tLoc [] tSample] blAll [] [tSample]) :=
  C1_blocklist_vs_selection [tLoc [] tSample] blAll [] [tSample] FState.empty tSample
    (by decide) (by decide) (by decide)

/-! ## Claim C4 -/

/-- Claim C4: every test presented to the filter gets exactly one of the
three dispositions — kept in the suite's filtered run set, recorded in the
blocklisted set, or excluded (dropped and not reported) — never two of them
and never none: membership in the run set and in the appended blocklist
records each coincide with the corresponding value of the decision table,
the two are mutually exclusive, and the excluded disposition is exactly the
remaining case. -/
theorem C4_filter_completeness (sel : List Locator) (bl : Locator → Bool)
    (path : List String) (tests : List MTest) (st : FState) (t : MTest)
    (hmem : t ∈ tests) :
    (t ∈ (filterTestsLoop sel bl path tests st).1 ↔
      dispOf sel bl (tLoc path t) = Disposition.runSet) ∧
    (transformTest (tLoc path t) TestStatus.blockListed ∈ blRecs sel bl path tests ↔
      dispOf sel bl (tLoc path t) = Disposition.blockListed) ∧
    ¬(t ∈ (filterTestsLoop sel bl path tests st).1 ∧
      transformTest (tLoc path t) TestStatus.blockListed ∈ blRecs sel bl path tests) ∧
    (dispOf sel bl (tLoc path t) = Disposition.excluded ↔
      (t ∉ (filterTestsLoop sel bl path tests st).1 ∧
        transformTest (tLoc path t) TestStatus.blockListed ∉ blRecs sel bl path tests)) := by
  have h1 : t ∈ (filterTestsLoop sel bl path tests st).1 ↔
      dispOf sel bl (tLoc path t) = Disposition.runSet := by
    rw [filterTestsLoop_eq]
    simp [List.mem_filter, hmem]
  have h2 := @mem_blRecs_iff sel bl path tests t hmem
  refine ⟨h1, h2, ?_, ?_⟩
  · rintro ⟨ha, hb⟩
    rw [h1] at ha
    rw [h2] at hb
    rw [ha] at hb
    cases hb
  · constructor
    · intro hd
      refine ⟨?_, ?_⟩
      · rw [h1, hd]; intro hc; cases hc
      · rw [h2, hd]; intro hc; cases hc
    · rintro ⟨ha, hb⟩
      rw [h1] at ha
      rw [h2] at hb
      cases hdisp : dispOf sel bl (tLoc path t) with
      | runSet => exact absurd hdisp ha
      | blockListed => exact absurd hdisp hb
      | excluded => rfl

/-- Witness for claim C4 at a concrete input: the blocklisted sample test's
disposition facts hold for a run-everything pass. -/
theorem C4_witness :
    (tSample ∈ (filterTestsLoop [] blAll [] [tSample] FState.empty).1 ↔
      dispOf [] blAll (tLoc [] tSample) = Disposition.runSet) ∧
    (transformTest (tLoc [] tSample) TestStatus.blockListed ∈ blRecs [] blAll [] [tSample] ↔
      dispOf [] blAll (tLoc [] tSample) = Disposition.blockListed) ∧
    ¬(tSample ∈ (filterTestsLoop [] blAll [] [tSample] FState.empty).1 ∧
      transformTest (tLoc [] tSample) TestStatus.blockListed ∈ blRecs [] blAll [] [tSample]) ∧
    (dispOf [] blAll (tLoc [] tSample) = Disposition.excluded ↔
      (tSample ∉ (filterTestsLoop [] blAll [] [tSample] FState.empty).1 ∧
        transformTest (tLoc [] tSample) TestStatus.blockListed ∉ blRecs [] blAll [] [tSample])) :=
  C4_filter_completeness [] blAll [] [tSample] FState.empty tSample (by decide)

/-! ## Claim C2 -/

/-- Claim C2 as stated is false on the code: in the sample tree the suite `S`
is blocklisted (first conjunct), one suite-level BlockListed record is
produced, yet the subtree is not pruned — the filter still recurses and the
non-blocklisted descendant test `t1` remains in the suite's filtered test
list, i.e. in the run set (second conjunct). -/
theorem C2_counterexample :
    blS (sLoc [] (MSuite.node (some "f") "S" .nil [tSample])) = true ∧
    (((filterSpecs [] blS [] treeS FState.empty).1.firstChild).map MSuite.testsOf)
      = some [tSample] ∧
    (filterSpecs [] blS [] treeS FState.empty).2.blocklistedSuites
      = [transformSuite ⟨"f", [], "S"⟩ TestStatus.blockListed] ∧
    (filterSpecs [] blS [] treeS FState.empty).2.blocklistedTests = [] := by
  decide

/-- Claim C2 (amended): for every suite whose own locator matches the
blocklist predicate the filter records one suite-level BlockListed
TestSuiteResult (one per blocklisted suite, including blocklisted descendant
suites, in traversal order), but the subtree is not pruned and per-test
evaluation is not skipped: the filter recurses into every child suite and
each descendant test is dispatched by the ordinary per-test decision table,
so descendant tests can still appear in the run set or as individual
test-level blocklisted entries. -/
theorem C2_suite_blocklist_no_prune (sel : List Locator) (bl : Locator → Bool)
    (path : List String) (s : MSuite) (st : FState) :
    (filterSpecs sel bl path s st).2.blocklistedSuites
      = st.blocklistedSuites ++ suiteRecs bl path s ∧
    (filterSpecs sel bl path s st).1 = pruneTree sel bl path s ∧
    (filterSpecs sel bl path s st).2.blocklistedTests
      = st.blocklistedTests ++ testRecs sel bl path s := by
  rw [filterSpecs_eq]
  exact ⟨rfl, rfl, rfl⟩

/-! ## Claim C3 -/

/-- Claim C3 is violated by the code (the accumulator fields are never reset
between passes): running the single locator group `{locators := [zz],
numberofexecutions := 2}` over a tree whose suite `S` is blocklisted, the
first pass's report carries the one suite record produced during that pass,
but the second pass's report carries that first-pass record again (the
accumulated list now holds it twice), so blocklist records leak across
passes. -/
theorem C3_accumulator_leak :
    ((executeTests blS (fun _ => treeSEmpty) engZero
        [⟨[⟨"f", [], "zz"⟩], 2⟩] 0 FState.empty).1.map
      (fun r => r.testSuiteResults)) =
    [[transformSuite ⟨"f", [], "S"⟩ TestStatus.blockListed],
     [transformSuite ⟨"f", [], "S"⟩ TestStatus.blockListed,
      transformSuite ⟨"f", [], "S"⟩ TestStatus.blockListed]] := by
  decide

/-! ## Claim C9 -/

/-- The repetition loop over one group equals sequentially executing the
group's locators `n` times. -/
theorem runGroupPasses_eq_runPlan (bl : Locator → Bool) (tree : List Locator → MSuite)
    (eng : Nat → List TestResult × List SuiteResult) (ls : List Locator) :
    ∀ (n idx : Nat) (st : FState),
      runGroupPasses bl tree eng ls n idx st = runPlan bl tree eng (List.replicate n ls) idx st := by
  intro n
  induction n with
  | zero => intro idx st; simp [runGroupPasses, runPlan, List.replicate]
  | succ k ih => intro idx st; simp [runGroupPasses, runPlan, List.replicate, ih]

/-- Sequential execution of a concatenated schedule splits into the two
schedules run one after the other. -/
theorem runPlan_append (bl : Locator → Bool) (tree : List Locator → MSuite)
    (eng : Nat → List TestResult × List SuiteResult) :
    ∀ (p q : List (List Locator)) (idx : Nat) (st : FState),
      runPlan bl tree eng (p ++ q) idx st =
        ((runPlan bl tree eng p idx st).1 ++
          (runPlan bl tree eng q (runPlan bl tree eng p idx st).2.2
            (runPlan bl tree eng p idx st).2.1).1,
         (runPlan bl tree eng q (runPlan bl tree eng p idx st).2.2
            (runPlan bl tree eng p idx st).2.1).2) := by
  intro p
  induction p with
  | nil => intro q idx st; simp [runPlan]
  | cons ls rest ih => intro q idx st; simp [runPlan, ih]

/-- A schedule of `n` passes produces `n` results. -/
theorem runPlan_length (bl : Locator → Bool) (tree : List Locator → MSuite)
    (eng : Nat → List TestResult × List SuiteResult) :
    ∀ (p : List (List Locator)) (idx : Nat) (st : FState),
      (runPlan bl tree eng p idx st).1.length = p.length := by
  intro p
  induction p with
  | nil => intro idx st; simp [runPlan]
  | cons ls rest ih => intro idx st; simp [runPlan, ih]

/-- The flat schedule of a group list has one entry per scheduled pass. -/
theorem passPlan_length (groups : List LocatorGroup) :
    (passPlan groups).length = (groups.map (fun g => g.numberofexecutions)).sum := by
  induction groups with
  | nil => simp [passPlan]
  | cons g rest ih => simp [passPlan, ih]

/-- Claim C9: the coordinator iterates the locator groups in the order given
and, for each group with repeat count `n`, executes exactly `n` sequential
passes with that group's locators as the explicit selection: the whole run
equals the strictly sequential execution of the flat schedule in which each
group contributes `n` consecutive entries, and the report holds exactly one
pass-level result entry per scheduled pass (entries are never collapsed
across passes). -/
theorem C9_repeat_semantics (bl : Locator → Bool) (tree : List Locator → MSuite)
    (eng : Nat → List TestResult × List SuiteResult) (groups : List LocatorGroup) :
    ∀ (idx : Nat) (st : FState),
      executeTests bl tree eng groups idx st = runPlan bl tree eng (passPlan groups) idx st ∧
      (executeTests bl tree eng groups idx st).1.length
        = (groups.map (fun g => g.numberofexecutions)).sum := by
  induction groups with
  | nil =>
    intro idx st
    exact ⟨by simp [executeTests, passPlan, runPlan], by simp [executeTests]⟩
  | cons g rest ih =>
    intro idx st
    have hmain : executeTests bl tree eng (g :: rest) idx st
        = runPlan bl tree eng (passPlan (g :: rest)) idx st := by
      have hplan : passPlan (g :: rest)
          = List.replicate g.numberofexecutions g.locators ++ passPlan rest := by
        simp [passPlan]
      rw [hplan, runPlan_append]
      simp only [executeTests, runGroupPasses_eq_runPlan]
      rw [(ih (runPlan bl tree eng (List.replicate g.numberofexecutions g.locators) idx st).2.2
        (runPlan bl tree eng (List.replicate g.numberofexecutions g.locators) idx st).2.1).1]
    refine ⟨hmain, ?_⟩
    rw [hmain, runPlan_length, passPlan_length]

/-! ## Claim C10 -/

/-- Claim C10: with a non-empty explicit locator set, only the test-level
results are restricted to the selected locators (they pass through the
selection filter after deduplication), while the suite-level results of the
pass are never filtered by the selection: they are exactly the engine's suite
results followed by the accumulated and freshly recorded suite blocklist
records, so every suite whose locator matches the blocklist predicate
contributes its BlockListed record to the pass report no matter what the
selection contains. -/
theorem C10_suite_results_unfiltered (bl : Locator → Bool) (tree : MSuite)
    (engT : List TestResult) (engS : List SuiteResult)
    (sel : List Locator) (st : FState) (hsel : sel ≠ []) :
    (execute bl tree engT engS sel st).1.testSuiteResults
      = engS ++ st.blocklistedSuites ++ suiteRecs bl [] tree ∧
    (∀ r ∈ suiteRecs bl [] tree,
      r ∈ (execute bl tree engT engS sel st).1.testSuiteResults) ∧
    (execute bl tree engT engS sel st).1.testResults
      = filterTestResultsByTestLocator
          (handleDuplicateTests (engT ++ (st.blocklistedTests ++ testRecs sel bl [] tree)))
          sel (addLocs st.blockListedLocators ((testRecs sel bl [] tree).map TestResult.locator)) := by
  have hs : (execute bl tree engT engS sel st).1.testSuiteResults
      = engS ++ st.blocklistedSuites ++ suiteRecs bl [] tree := by
    simp [execute, filterSpecs_eq, List.append_assoc]
  refine ⟨hs, ?_, ?_⟩
  · intro r hr
    rw [hs]
    exact List.mem_append_right _ hr
  · simp [execute, filterSpecs_eq, hsel]

/-- Witness for claim C10 at a concrete input: with the selection `selOther`
(which contains no locator of the sample tree), the blocklisted suite `S`
still contributes its record to the pass's suite results. -/
theorem C10_witness :
    (execute blS treeS [] [] selOther FState.empty).1.testSuiteResults
      = [] ++ FState.empty.blocklistedSuites ++ suiteRecs blS [] treeS ∧
    (∀ r ∈ suiteRecs blS [] treeS,
      r ∈ (execute blS treeS [] [] selOther FState.empty).1.testSuiteResults) ∧
    (execute blS treeS [] [] selOther FState.empty).1.testResults
      = filterTestResultsByTestLocator
          (handleDuplicateTests ([] ++ (FState.empty.blocklistedTests ++ testRecs selOther blS [] treeS)))
          selOther (addLocs FState.empty.blockListedLocators
            ((testRecs selOther blS [] treeS).map TestResult.locator)) :=
  C10_suite_results_unfiltered blS treeS [] [] selOther FState.empty (by decide)

/-! ## Walker lemmas for claim C5 -/

/-- Under the spec's model of `Util.getIdentifier` (a node's qualified name
is its title), mapping it over a chain is the identity. -/
theorem map_getIdentifier (file : String) (l : List String) :
    l.map (getIdentifier file) = l := by
  induction l with
  | nil => rfl
  | cons a t ih => simp [getIdentifier, ih]

/-- The walker's test loop only appends to the test-node accumulator. -/
theorem walkTestsLoop_grow (repo : String) (path : List String) :
    ∀ (tests : List MTest) (acc : List TestNode),
      ∃ ext, walkTestsLoop repo path tests acc = acc ++ ext := by
  intro tests
  induction tests with
  | nil => intro acc; exact ⟨[], by simp [walkTestsLoop]⟩
  | cons t rest ih =>
    intro acc
    obtain ⟨ext, hext⟩ := ih (acc ++ [mkTestNode repo (t.file.getD "") path t.title])
    exact ⟨mkTestNode repo (t.file.getD "") path t.title :: ext, by
      simp [walkTestsLoop, hext]⟩

mutual
/-- The walker only appends to both accumulators. -/
theorem listWalk_grow (repo : String) (path : List String) (s : MSuite)
    (acc : List TestSuiteNode × List TestNode) :
    ∃ e1 e2, listWalk repo path s acc = (acc.1 ++ e1, acc.2 ++ e2) := by
  cases s with
  | node f title suites tests =>
    obtain ⟨e1, e2, h⟩ := walkChildren_grow repo path suites acc
    obtain ⟨e3, h3⟩ := walkTestsLoop_grow repo path tests (walkChildren repo path suites acc).2
    refine ⟨e1, e2 ++ e3, ?_⟩
    simp only [listWalk]
    rw [h3, h]
    simp [List.append_assoc]
/-- The walker's child loop only appends to both accumulators. -/
theorem walkChildren_grow (repo : String) (path : List String) (l : MSuiteL)
    (acc : List TestSuiteNode × List TestNode) :
    ∃ e1 e2, walkChildren repo path l acc = (acc.1 ++ e1, acc.2 ++ e2) := by
  cases l with
  | nil => exact ⟨[], [], by simp [walkChildren]⟩
  | cons c rest =>
    obtain ⟨e1, e2, h1⟩ := listWalk_grow repo (path ++ [c.titleOf]) c
      (acc.1 ++ [mkSuiteNode repo (c.fileOf.getD "") path c.titleOf], acc.2)
    obtain ⟨e3, e4, h2⟩ := walkChildren_grow repo path rest
      (listWalk repo (path ++ [c.titleOf]) c
        (acc.1 ++ [mkSuiteNode repo (c.fileOf.getD "") path c.titleOf], acc.2))
    refine ⟨[mkSuiteNode repo (c.fileOf.getD "") path c.titleOf] ++ e1 ++ e3, e2 ++ e4, ?_⟩
    simp only [walkChildren]
    rw [h2, h1]
    simp [List.append_assoc]
end

/-- Resolution of a parent link survives growing the suite list. -/
theorem Good_mono {S : List TestSuiteNode} {t : TestNode} (hg : Good S t)
    (ext : List TestSuiteNode) : Good (S ++ ext) t := by
  intro h hh
  obtain ⟨s, hs, he⟩ := hg h hh
  exact ⟨s, List.mem_append_left _ hs, he⟩

/-- If the current chain's suite node is already present, every test node
the test loop appends resolves its parent link in the present suite list. -/
theorem walkTestsLoop_good (repo : String) (path : List String) (S : List TestSuiteNode)
    (hinv : path = [] ∨ ∃ n ∈ S, n.id = md5Hex (chainInput repo path)) :
    ∀ (tests : List MTest) (acc : List TestNode),
      (∀ t ∈ acc, Good S t) → ∀ t ∈ walkTestsLoop repo path tests acc, Good S t := by
  intro tests
  induction tests with
  | nil => intro acc hacc t ht; exact hacc t (by simpa [walkTestsLoop] using ht)
  | cons tt rest ih =>
    intro acc hacc t ht
    refine ih (acc ++ [mkTestNode repo (tt.file.getD "") path tt.title]) ?_ t
      (by simpa [walkTestsLoop] using ht)
    intro u hu
    rcases List.mem_append.mp hu with hu | hu
    · exact hacc u hu
    · rcases List.mem_singleton.mp hu with rfl
      intro h hh
      cases path with
      | nil => simp [mkTestNode, getIdentifier] at hh
      | cons p ps =>
        rcases hinv with hinv | ⟨n, hn, hid⟩
        · cases hinv
        · have hsome : (mkTestNode repo (tt.file.getD "") (p :: ps) tt.title).suiteId
              = some (md5Hex (chainInput repo (p :: ps))) := by
            simp [mkTestNode, getIdentifier, map_getIdentifier]
          rw [hsome] at hh
          obtain rfl := Option.some.inj hh
          exact ⟨n, hn, hid⟩

mutual
/-- Every test node the walker emits resolves its parent link among the
suite nodes present when the walk returns, provided the invariant that the
current chain's suite node (when the chain is non-empty) is already present. -/
theorem listWalk_good (repo : String) (path : List String) (s : MSuite)
    (acc : List TestSuiteNode × List TestNode)
    (hinv : path = [] ∨ ∃ n ∈ acc.1, n.id = md5Hex (chainInput repo path))
    (hacc : ∀ t ∈ acc.2, Good acc.1 t) :
    ∀ t ∈ (listWalk repo path s acc).2, Good (listWalk repo path s acc).1 t := by
  cases s with
  | node f title suites tests =>
    have hch := walkChildren_good repo path suites acc hinv hacc
    obtain ⟨e1, e2, hgrow⟩ := walkChildren_grow repo path suites acc
    have hinv1 : path = [] ∨ ∃ n ∈ (walkChildren repo path suites acc).1,
        n.id = md5Hex (chainInput repo path) := by
      rcases hinv with h | ⟨n, hn, hid⟩
      · exact Or.inl h
      · exact Or.inr ⟨n, by rw [hgrow]; exact List.mem_append_left _ hn, hid⟩
    intro t ht
    simp only [listWalk] at ht ⊢
    exact walkTestsLoop_good repo path (walkChildren repo path suites acc).1 hinv1 tests
      (walkChildren repo path suites acc).2 hch t ht
/-- Child-loop version of the parent-link resolution invariant. -/
theorem walkChildren_good (repo : String) (path : List String) (l : MSuiteL)
    (acc : List TestSuiteNode × List TestNode)
    (hinv : path = [] ∨ ∃ n ∈ acc.1, n.id = md5Hex (chainInput repo path))
    (hacc : ∀ t ∈ acc.2, Good acc.1 t) :
    ∀ t ∈ (walkChildren repo path l acc).2, Good (walkChildren repo path l acc).1 t := by
  cases l with
  | nil => intro t ht; simp only [walkChildren] at ht ⊢; exact hacc t ht
  | cons c rest =>
    have hinv1 : path ++ [c.titleOf] = [] ∨
        ∃ n ∈ (acc.1 ++ [mkSuiteNode repo (c.fileOf.getD "") path c.titleOf], acc.2).1,
          n.id = md5Hex (chainInput repo (path ++ [c.titleOf])) := by
      refine Or.inr ⟨mkSuiteNode repo (c.fileOf.getD "") path c.titleOf,
        List.mem_append_right _ (List.mem_singleton.mpr rfl), ?_⟩
      simp [mkSuiteNode, getIdentifier, map_getIdentifier]
    have hacc1 : ∀ t ∈ (acc.1 ++ [mkSuiteNode repo (c.fileOf.getD "") path c.titleOf], acc.2).2,
        Good (acc.1 ++ [mkSuiteNode repo (c.fileOf.getD "") path c.titleOf], acc.2).1 t := by
      intro t ht
      exact Good_mono (hacc t ht) _
    have h1 := listWalk_good repo (path ++ [c.titleOf]) c
      (acc.1 ++ [mkSuiteNode repo (c.fileOf.getD "") path c.titleOf], acc.2) hinv1 hacc1
    obtain ⟨e1, e2, hg1⟩ := listWalk_grow repo (path ++ [c.titleOf]) c
      (acc.1 ++ [mkSuiteNode repo (c.fileOf.getD "") path c.titleOf], acc.2)
    have hinv2 : path = [] ∨
        ∃ n ∈ (listWalk repo (path ++ [c.titleOf]) c
          (acc.1 ++ [mkSuiteNode repo (c.fileOf.getD "") path c.titleOf], acc.2)).1,
          n.id = md5Hex (chainInput repo path) := by
      rcases hinv with h | ⟨n, hn, hid⟩
      · exact Or.inl h
      · refine Or.inr ⟨n, ?_, hid⟩
        rw [hg1]
        exact List.mem_append_left _ (List.mem_append_left _ hn)
    have h2 := walkChildren_good repo path rest
      (listWalk repo (path ++ [c.titleOf]) c
        (acc.1 ++ [mkSuiteNode repo (c.fileOf.getD "") path c.titleOf], acc.2)) hinv2 h1
    intro t ht
    simp only [walkChildren] at ht ⊢
    exact h2 t ht
end

/-! ## Claim C5 -/

/-- Claim C5: for every test node emitted by a discovery walk with a non-null
`suiteId`, some suite node in the same discovery output carries exactly that
id (the parent suite node is emitted when its title is pushed, before the
descent that emits the test, so the link resolves within the same walk). -/
theorem C5_parent_links_resolve (repo : String) (root : MSuite) (t : TestNode)
    (hmem : t ∈ (listWalk repo [] root ([], [])).2) (h : String)
    (hid : t.suiteId = some h) :
    ∃ s ∈ (listWalk repo [] root ([], [])).1, s.id = h :=
  listWalk_good repo [] root ([], []) (Or.inl rfl)
    (by intro u hu; cases hu) t hmem h hid

/-- Witness for claim C5 at a concrete input: in the sample discovery tree
the test `t` under suite `A` links to the emitted node for chain `[A]`. -/
theorem C5_witness :
    ∃ s ∈ (listWalk "r" [] treeW ([], [])).1,
      s.id = md5Hex (chainInput "r" ["A"]) :=
  C5_parent_links_resolve "r" treeW (mkTestNode "r" "f" ["A"] "t")
    (by simp [treeW, listWalk, walkChildren, walkTestsLoop, MSuite.titleOf, MSuite.fileOf])
    (md5Hex (chainInput "r" ["A"]))
    (by simp [mkTestNode, getIdentifier, map_getIdentifier])

/-! ## Claim C8 -/

/-- Claim C8 is violated by the code: in `badTree` the only child `A` of the
root fails while being traversed, and the walk returns with `A` still on the
ancestor-title stack — the pop after the recursive call is skipped when the
error propagates, so the stack is not restored to its pre-child state `[]`. -/
theorem C8_pop_skipped_on_error :
    (walkE badTree []).1 = ["A"] ∧ isErr (walkE badTree []).2 = true := by
  decide

/-! ## Join lemmas for claims C6 and C7 -/

/-- Unfolding of `joinNL` at a cons with a non-empty tail. -/
theorem joinNL_cons_of_ne (x : String) (l : List String) (hl : l ≠ []) :
    joinNL (x :: l) = x ++ "\n" ++ joinNL l := by
  cases l with
  | nil => exact absurd rfl hl
  | cons y t => rfl

/-- Appending one element to a non-empty chain appends a separator and the
element to the join. -/
theorem joinNL_append_singleton (l : List String) (x : String) (hl : l ≠ []) :
    joinNL (l ++ [x]) = joinNL l ++ "\n" ++ x := by
  induction l with
  | nil => exact absurd rfl hl
  | cons a t ih =>
    cases t with
    | nil => rfl
    | cons b t2 =>
      have h1 : joinNL ((a :: b :: t2) ++ [x]) = a ++ "\n" ++ joinNL ((b :: t2) ++ [x]) := rfl
      rw [h1, ih (by simp), joinNL_cons_of_ne a (b :: t2) (by simp)]
      simp [String.append_assoc]

/-- Unfolding of `joinData` at a cons with a non-empty tail. -/
theorem joinData_cons_of_ne (x : List Char) (l : List (List Char)) (hl : l ≠ []) :
    joinData (x :: l) = x ++ '\n' :: joinData l := by
  cases l with
  | nil => exact absurd rfl hl
  | cons y t => rfl

/-- `joinNL` agrees with its character-list analogue. -/
theorem joinNL_data : ∀ l : List String, (joinNL l).data = joinData (l.map String.data)
  | [] => rfl
  | [x] => rfl
  | x :: y :: t => by
    show (x ++ "\n" ++ joinNL (y :: t)).data = joinData (x.data :: (y :: t).map String.data)
    rw [String.data_append, String.data_append, joinNL_data (y :: t)]
    rw [joinData_cons_of_ne _ _ (by simp)]
    simp [List.append_assoc]

/-- The digest input at the character level: scope, a separator, then the
joined chain. -/
theorem chainInput_data (repo : String) (chain : List String) :
    (chainInput repo chain).data = repo.data ++ '\n' :: joinData (chain.map String.data) := by
  show (repo ++ "\n" ++ joinNL chain).data = _
  rw [String.data_append, String.data_append, joinNL_data]
  simp [List.append_assoc]

/-- Splitting the joined chain around one element: the joined prefix (with
trailing separator), the element, the joined suffix (with leading
separator). -/
theorem joinData_split : ∀ (A : List (List Char)) (t : List Char) (B : List (List Char)),
    joinData (A ++ t :: B) = preJ A ++ t ++ sufJ B
  | [], t, B => by
    cases B with
    | nil => simp [joinData, preJ, sufJ]
    | cons b B' =>
      rw [List.nil_append, joinData_cons_of_ne t (b :: B') (by simp)]
      simp [preJ, sufJ]
  | a :: A', t, B => by
    have h := joinData_split A' t B
    rw [List.cons_append, joinData_cons_of_ne a (A' ++ t :: B) (by simp), h]
    cases A' with
    | nil => simp [preJ, sufJ, joinData, List.append_assoc]
    | cons a2 A2 =>
      rw [preJ, preJ, if_neg (by simp), if_neg (by simp),
        joinData_cons_of_ne a (a2 :: A2) (by simp)]
      simp [List.append_assoc]

/-- Two newline-free segments followed by a separator determine each other:
the first separator pins down the segment boundary. -/
theorem noNL_head_eq : ∀ (u v r s : List Char), '\n' ∉ u → '\n' ∉ v →
    u ++ '\n' :: r = v ++ '\n' :: s → u = v
  | [], v, r, s, _, hv, h => by
    cases v with
    | nil => rfl
    | cons b bs =>
      rw [List.nil_append, List.cons_append] at h
      injection h with h1 h2
      rw [← h1] at hv
      exact absurd (List.mem_cons_self _ _) hv
  | a :: as, v, r, s, hu, hv, h => by
    cases v with
    | nil =>
      rw [List.nil_append, List.cons_append] at h
      injection h with h1 h2
      rw [h1] at hu
      exact absurd (List.mem_cons_self _ _) hu
    | cons b bs =>
      rw [List.cons_append, List.cons_append] at h
      injection h with h1 h2
      have hu2 : '\n' ∉ as := fun hx => hu (List.mem_cons_of_mem _ hx)
      have hv2 : '\n' ∉ bs := fun hx => hv (List.mem_cons_of_mem _ hx)
      rw [h1, noNL_head_eq as bs r s hu2 hv2 h2]

/-! ## Claim C6 -/

/-- Claim C6 as stated is false on the code for a root-level test: the
walker's digest input for a test with an empty ancestor chain is
`scope + "\n" + "" + "\n" + name` (an extra separator), not
`scope + "\n" + join("\n", chain)` with `chain = [name]`, and the two hex
digests differ at this concrete input. -/
theorem C6_counterexample :
    (mkTestNode "r" "f" [] "t").id ≠ specIdentifier "r" ["t"] := by
  set_option maxRecDepth 200000 in decide

/-- Claim C6 (amended): every suite node's identifier is the hex digest of
the scope id, a newline, and its full qualified-name chain joined by
newlines; a test node's identifier follows the same formula whenever its
ancestor chain is non-empty, while a root-level test hashes
`scope + "\n" + "\n" + name`, with an extra separator before the name.
Determinism is immediate: the identifier is a pure function of the scope id
and the chain. -/
theorem C6_identifier_formula (repo file : String) (path : List String) (title : String) :
    (mkSuiteNode repo file path title).id = specIdentifier repo (path ++ [title]) ∧
    (path ≠ [] → (mkTestNode repo file path title).id = specIdentifier repo (path ++ [title])) ∧
    (mkTestNode repo file [] title).id
      = md5Hex (repo ++ "\n" ++ "\n" ++ getIdentifier file title) := by
  refine ⟨?_, ?_, ?_⟩
  · simp [mkSuiteNode, specIdentifier, chainInput, map_getIdentifier, getIdentifier]
  · intro hp
    simp only [mkTestNode, map_getIdentifier, specIdentifier]
    apply congrArg md5Hex
    rw [joinNL_append_singleton path title hp]
    simp [chainInput, getIdentifier, String.append_assoc]
  · simp only [mkTestNode, List.map_nil]
    apply congrArg md5Hex
    simp [chainInput, joinNL, String.append_empty, String.append_assoc]

/-- Witness for the amended claim C6 at a concrete input: a test under the
one-suite chain `[A]` hashes exactly the spec's formula for the chain
`[A, t]`. -/
theorem C6_witness :
    (mkTestNode "r" "f" ["A"] "t").id = specIdentifier "r" (["A"] ++ ["t"]) :=
  (C6_identifier_formula "r" "f" ["A"] "t").2.1 (by decide)

/-! ## Claim C7 -/

/-- Claim C7 as stated is false on the code: the two ancestor titles `"a"`
and `"a\na"` are distinct, yet swapping their positions in a suite's
ancestor chain leaves the digest input — and hence the identifier — unchanged,
because the newline inside the second title realigns with the separator. -/
theorem C7_counterexample :
    ("a" : String) ≠ "a\na" ∧
    (mkSuiteNode "r" "f" ["a", "a\na"] "x").id = (mkSuiteNode "r" "f" ["a\na", "a"] "x").id := by
  refine ⟨by decide, ?_⟩
  simp only [mkSuiteNode]
  exact congrArg md5Hex (by decide)

/-- Claim C7 (amended): changing any single ancestor title to a different
string always changes the walker's digest-input string, and swapping the
positions of two distinct ancestor titles changes the digest input provided
the two swapped titles contain no newline (the separator character); the
identifier then differs except under an MD5 collision. With a newline inside
a swapped title the digest input — and so the identifier — can coincide, as
the counterexample shows. -/
theorem C7_digest_input_sensitivity :
    (∀ (repo : String) (A B : List String) (t t' : String), t ≠ t' →
      chainInput repo (A ++ t :: B) ≠ chainInput repo (A ++ t' :: B)) ∧
    (∀ (repo : String) (A M B : List String) (t t' : String), t ≠ t' →
      '\n' ∉ t.data → '\n' ∉ t'.data →
      chainInput repo (A ++ t :: (M ++ t' :: B)) ≠ chainInput repo (A ++ t' :: (M ++ t :: B))) := by
  constructor
  · intro repo A B t t' hne heq
    apply hne
    have hd := congrArg String.data heq
    rw [chainInput_data, chainInput_data] at hd
    simp only [List.map_append, List.map_cons] at hd
    rw [joinData_split, joinData_split] at hd
    have h1 := List.append_cancel_left hd
    injection h1 with h1a h1b
    rw [List.append_assoc, List.append_assoc] at h1b
    have h2 := List.append_cancel_left h1b
    have h3 := List.append_cancel_right h2
    exact String.ext h3
  · intro repo A M B t t' hne hnt hnt' heq
    apply hne
    have hd := congrArg String.data heq
    rw [chainInput_data, chainInput_data] at hd
    simp only [List.map_append, List.map_cons] at hd
    rw [joinData_split, joinData_split] at hd
    rw [sufJ, if_neg (by simp), sufJ, if_neg (by simp)] at hd
    have h1 := List.append_cancel_left hd
    injection h1 with h1a h1b
    rw [List.append_assoc, List.append_assoc] at h1b
    have h2 := List.append_cancel_left h1b
    exact String.ext (noNL_head_eq t.data t'.data _ _ hnt hnt' h2)

/-- Witness for the amended claim C7 at a concrete input: swapping the
distinct newline-free titles `x` and `y` changes the digest input. -/
theorem C7_witness :
    chainInput "r" (["a"] ++ "x" :: ([] ++ "y" :: [])) ≠
    chainInput "r" (["a"] ++ "y" :: ([] ++ "x" :: [])) :=
  C7_digest_input_sensitivity.2 "r" ["a"] [] [] "x" "y" (by decide) (by decide) (by decide)

end TAS

